import Mathlib

/-!
Verification of the synchronization engine of `dptrp1_manager`
(`dptrp1manager/dptsync.py`, `localtree.py`, `remotetree.py`, `tools.py`).

Shallow embedding conventions:
* Paths are ordered component lists (`List String`).  The Python code keeps
  paths as `/`-separated strings; `split("/", 1)`, `os.path.join`,
  `os.path.basename` and `os.path.relpath` are modelled on component lists
  (`os.path` is standard-library code, external to this repository, so it is
  modelled by its documented behaviour on normalized relative paths).
* A snapshot (an `anytree` tree of `LocalNode`/`DPNode`) is represented by its
  pre-order node listing.  Every node stores its full path, so lookups by path
  (`get_node_by_path`, which resolves paths against the tree) are embedded as
  list search, and detaching a node together with its subtree
  (`remove_node`, which reassigns `parent.children`) is embedded as removal of
  every node whose path extends the removed path.
* The mutable `sync_state` attribute (initialised to `None` in both node
  constructors) is carried next to the immutable node data in `SNode`.
* Real I/O (device REST calls, filesystem writes, the interactive conflict
  prompt) is represented by an action trace of type `List Act`; a Python
  `AttributeError` (dereferencing a `None` lookup result) is represented by
  `Option.none` results.
-/

/-- The `entry_type` attribute: `"document"` or `"folder"`. -/
inductive EType where
  | document
  | folder
deriving DecidableEq, Repr

/-- The transient `sync_state` strings assigned by `Synchronizer._check_node`
and the trailing "new" pass of `_cmp_remote2old` / `_cmp_local2old`. -/
inductive SyncState where
  | new
  | equal
  | modified
deriving DecidableEq, Repr

/-- A naive `datetime.datetime` value (year, month, day, hour, minute, second,
microsecond), as produced by `datetime.utcfromtimestamp` /
`datetime.strptime` in `localtree.py` / `remotetree.py`. -/
structure DateTime where
  year : Nat
  month : Nat
  day : Nat
  hour : Nat
  minute : Nat
  second : Nat
  microsecond : Nat
deriving DecidableEq, Repr

/-- The immutable data of one snapshot node: its path (components), kind,
`file_size` (`None` for folders), `created_date` and `modified_date`.
For a `LocalNode` the path is `relpath`, for a `DPNode` it is `entry_path`;
`LocalNode` has no `created_date` (kept `none`). -/
structure FsNode where
  path : List String
  etype : EType
  size : Option Nat
  created : Option DateTime
  mtime : Option DateTime
deriving DecidableEq, Repr

/-- A snapshot node together with its mutable `sync_state` attribute
(`None` when not yet assigned, as in both node constructors). -/
structure SNode where
  node : FsNode
  sync_state : Option SyncState
deriving DecidableEq, Repr

/-- The `deleted_nodes` dictionary of `_cmp_remote2old` / `_cmp_local2old`:
`{"documents": [...], "folders": [...]}`. -/
structure DelSet where
  documents : List (List String)
  folders : List (List String)
deriving DecidableEq, Repr

/-- Result of one per-side diff (`_cmp_remote2old` / `_cmp_local2old`):
the deletion sets, the current tree with `sync_state` populated, and whether
the "No old remote state found" warning was printed (persisted snapshot
absent). -/
structure DiffOut where
  dels : DelSet
  tree : List SNode
  warnedNoOld : Bool
deriving DecidableEq, Repr

/-- `get_node_by_path` (both `LocalTree` and `RemoteTree`): resolve a path in
the tree, `None` when absent.  On the pre-order listing this is the first node
whose path equals the request. -/
def getNodeByPath (t : List SNode) (p : List String) : Option SNode :=
  t.find? (fun m => decide (m.node.path = p))

/-- Mutation `node.sync_state = s` of the node found at path `p`
(paths are unique within a snapshot, so at most one node is affected). -/
def setState (t : List SNode) (p : List String) (s : SyncState) : List SNode :=
  t.map (fun m => if m.node.path = p then { m with sync_state := some s } else m)

/-- `Synchronizer._check_node(old, new)`: the state written into
`new.sync_state`.  Dispatches on the *old* node's `entry_type`; for a document
it compares `file_size` only (never timestamps); otherwise `"equal"`. -/
def check_node (old cur : FsNode) : SyncState :=
  if old.etype = EType.document then
    if old.size = cur.size then SyncState.equal else SyncState.modified
  else SyncState.equal

/-- One iteration of the first loop of `_cmp_remote2old` / `_cmp_local2old`
over the nodes of the persisted tree: a path found in the current tree is
classified by `_check_node`; an absent path is appended to the
`documents` or `folders` deletion bucket according to the old node's kind. -/
def diffStep (acc : DelSet × List SNode) (oldn : FsNode) : DelSet × List SNode :=
  match getNodeByPath acc.2 oldn.path with
  | some m => (acc.1, setState acc.2 oldn.path (check_node oldn m.node))
  | none =>
    if oldn.etype = EType.document then
      (⟨acc.1.documents ++ [oldn.path], acc.1.folders⟩, acc.2)
    else
      (⟨acc.1.documents, acc.1.folders ++ [oldn.path]⟩, acc.2)

/-- The second loop of `_cmp_remote2old` / `_cmp_local2old`: every node whose
`sync_state` is still `None` is set to `"new"`. -/
def markNew (t : List SNode) : List SNode :=
  t.map (fun m =>
    if m.sync_state = none then { m with sync_state := some SyncState.new } else m)

/-- `Synchronizer._cmp_remote2old` / `_cmp_local2old` (both sides share this
logic; they differ only in node class and path attribute): diff the current
snapshot against the persisted one.  When no persisted snapshot exists
(`oldtree is None`) only the warning is printed: the deletion sets stay empty
and no `sync_state` is assigned. -/
def cmpToOld (oldtree : Option (List FsNode)) (cur : List FsNode) : DiffOut :=
  let cur0 := cur.map (fun n => SNode.mk n none)
  match oldtree with
  | none => ⟨⟨[], []⟩, cur0, true⟩
  | some old =>
    let r := old.foldl diffStep (⟨[], []⟩, cur0)
    ⟨r.1, markNew r.2, false⟩

/-- The first element of `l` that is not a common head of `l` and `s`
stops the count: length of the longest common leading run of components.
Used to model `os.path.relpath` on normalized relative paths. -/
def commonStemLen : List String → List String → Nat
  | a :: as, b :: bs => if a = b then commonStemLen as bs + 1 else 0
  | _, _ => 0

/-- Modelled from `os.path.relpath(path, start)` for already-normalized
relative paths (no `.` / `..` components): strip the common leading
components, prepend one `".."` per remaining `start` component, and return
`["."]` when nothing is left. -/
def relpathComps (path start : List String) : List String :=
  let i := commonStemLen path start
  let rel := List.replicate (start.length - i) ".." ++ path.drop i
  if rel = [] then ["."] else rel

/-- Modelled from `os.path.basename` on an absolute directory path given as
components: the last component. -/
def lastD (l : List String) : String := l.getLastD ""

/-- `Synchronizer._fix_path4local(path)`: translate a remote path to local
coordinates.  `rp = relpath(path, remote_root)`; `"."` becomes
`basename(local_root)`, otherwise `join(basename(local_root), rp)`. -/
def fix_path4local (lroot rroot : List String) (path : List String) : List String :=
  let rp := relpathComps path rroot
  if rp = ["."] then [lastD lroot] else lastD lroot :: rp

/-- `Synchronizer._fix_path4remote(path)`: translate a local path to remote
coordinates.  `path.split("/", 1)`: with a single component the result is
`remote_root`, otherwise `remote_root ++ "/" ++ rest`. -/
def fix_path4remote (rroot : List String) (path : List String) : List String :=
  match path with
  | [] => rroot
  | [_] => rroot
  | _ :: rest => rroot ++ rest

/-- The transfer decision of `Synchronizer._handle_changes` (the side effect
performed: a download, an upload, or the interactive `_askuser` prompt). -/
inductive HCAct where
  | download
  | upload
  | ask
deriving DecidableEq, Repr

/-- `Synchronizer._handle_changes(node_loc, node_rem)`, as the exact
`if`/`elif` chain of the source over `(node_rem.sync_state,
node_loc.sync_state)`; `none` is the fall-through of the chain (no branch
taken, nothing happens). -/
def handle_changes (loc rem : Option SyncState) : Option HCAct :=
  if rem = none ∨ loc = none then some HCAct.download
  else if rem = some SyncState.equal ∧ loc = some SyncState.equal then some HCAct.ask
  else if rem = some SyncState.modified ∧ loc = some SyncState.modified then some HCAct.ask
  else if rem = some SyncState.new ∧ loc = some SyncState.new then some HCAct.ask
  else if rem = some SyncState.equal ∧ loc = some SyncState.modified then some HCAct.upload
  else if rem = some SyncState.equal ∧ loc = some SyncState.new then some HCAct.ask
  else if rem = some SyncState.modified ∧ loc = some SyncState.equal then some HCAct.download
  else if rem = some SyncState.new ∧ loc = some SyncState.equal then some HCAct.ask
  else if rem = some SyncState.modified ∧ loc = some SyncState.new then some HCAct.ask
  else if rem = some SyncState.new ∧ loc = some SyncState.modified then some HCAct.ask
  else none

/-- A sample current-tree document node (used by concrete counterexamples
and witnesses). -/
def nodeA : FsNode := ⟨["r", "a.pdf"], EType.document, some 100, none, none⟩

/-- Observable side effects of one synchronizer run: device REST calls,
local filesystem operations, transfers, and invocations of the interactive
conflict resolution (`_askuser`, recorded with the local path and the two
sync states it is shown). -/
inductive Act where
  | rmRemoteFile (p : List String)
  | rmRemoteDir (p : List String)
  | reportNonEmptyDir (p : List String)
  | rmLocalFile (p : List String)
  | rmLocalDir (p : List String)
  | download (remotePath localPath : List String)
  | upload (localPath remotePath : List String)
  | mkLocalDir (p : List String)
  | mkRemoteDir (p : List String)
  | ask (localPath : List String) (locState remState : Option SyncState)
deriving DecidableEq, Repr

/-- `DPManager.rm_file(path)`: if the node exists on the device tree, delete
the document (REST `delete_document_byid`).  The in-memory device tree shares
its nodes with the synchronizer's current remote tree, so existence is checked
against it; the deletion removes the document from the remote store. -/
def dp_rm_file (device : List FsNode) (treeRem : List SNode) (p : List String) :
    List Act × List FsNode :=
  if (getNodeByPath treeRem p).isSome then
    ([Act.rmRemoteFile p], device.filter (fun n => decide (¬ n.path = p)))
  else ([], device)

/-- `get_directory_contents_byid` count: the number of entries whose path is
directly below `p` in the remote store. -/
def countChildren (device : List FsNode) (p : List String) : Nat :=
  (device.filter (fun n =>
    decide (n.path.length = p.length + 1 ∧ n.path.take p.length = p))).length

/-- `DPManager.rm_dir(path)` with `MyDigitalPaper.delete_directory_byid`: if
the node exists, the device is asked for the folder's contents; an empty
folder is deleted, a non-empty one is rejected with the printed error
`"ERROR: Remote directory not empty. Cannot delete it."` and the store is
left unchanged (no exception is raised). -/
def dp_rm_dir (device : List FsNode) (treeRem : List SNode) (p : List String) :
    List Act × List FsNode :=
  if (getNodeByPath treeRem p).isSome then
    if countChildren device p = 0 then
      ([Act.rmRemoteDir p], device.filter (fun n => decide (¬ n.path = p)))
    else ([Act.reportNonEmptyDir p], device)
  else ([], device)

/-- `RemoteTree.remove_node(path)`: when the node exists, detach it from its
parent — the node and its whole subtree (every node whose path extends it)
leave the in-memory tree; when it does not exist, do nothing. -/
def removeNodeRem (treeRem : List SNode) (p : List String) : List SNode :=
  if (getNodeByPath treeRem p).isSome then
    treeRem.filter (fun m => decide (¬ m.node.path.take p.length = p))
  else treeRem

/-- `LocalTree.remove_node(path)` (only reached after the caller has already
dereferenced the node, so the node exists): detach the node and its subtree
from the in-memory local tree. -/
def removeNodeLoc (treeLoc : List SNode) (p : List String) : List SNode :=
  treeLoc.filter (fun m => decide (¬ m.node.path.take p.length = p))

/-- The `deletions_loc["documents"]` loop of `_handle_deletions`: for each
locally deleted document, `rm_file` on the device at the translated path, then
remove the node from the in-memory remote tree. -/
def loopLocDocs (rroot : List String) :
    List (List String) → List FsNode → List SNode → List Act × List FsNode × List SNode
  | [], device, treeRem => ([], device, treeRem)
  | d :: ds, device, treeRem =>
    let q := fix_path4remote rroot d
    let r0 := dp_rm_file device treeRem q
    let rest := loopLocDocs rroot ds r0.2 (removeNodeRem treeRem q)
    (r0.1 ++ rest.1, rest.2)

/-- The `deletions_loc["folders"]` loop of `_handle_deletions`: `rm_dir` on
the device, then — unconditionally, whether or not the device deletion was
rejected — remove the node from the in-memory remote tree. -/
def loopLocFolders (rroot : List String) :
    List (List String) → List FsNode → List SNode → List Act × List FsNode × List SNode
  | [], device, treeRem => ([], device, treeRem)
  | d :: ds, device, treeRem =>
    let q := fix_path4remote rroot d
    let r0 := dp_rm_dir device treeRem q
    let rest := loopLocFolders rroot ds r0.2 (removeNodeRem treeRem q)
    (r0.1 ++ rest.1, rest.2)

/-- The `deletions_rem["documents"]` loop of `_handle_deletions`:
`tree_loc.get_node_by_path(...).abspath` dereferences the local node of each
remotely deleted document — `None` raises `AttributeError` (`Option.none`
here) — then deletes the local file and removes the node from the in-memory
local tree. -/
def loopRemDocs (lroot rroot : List String) :
    List (List String) → List SNode → Option (List Act × List SNode)
  | [], treeLoc => some ([], treeLoc)
  | d :: ds, treeLoc =>
    let p := fix_path4local lroot rroot d
    match getNodeByPath treeLoc p with
    | none => none
    | some _ =>
      match loopRemDocs lroot rroot ds (removeNodeLoc treeLoc p) with
      | none => none
      | some r => some (Act.rmLocalFile p :: r.1, r.2)

/-- The `deletions_rem["folders"]` loop of `_handle_deletions` (same shape as
the documents loop, deleting local directories). -/
def loopRemFolders (lroot rroot : List String) :
    List (List String) → List SNode → Option (List Act × List SNode)
  | [], treeLoc => some ([], treeLoc)
  | d :: ds, treeLoc =>
    let p := fix_path4local lroot rroot d
    match getNodeByPath treeLoc p with
    | none => none
    | some _ =>
      match loopRemFolders lroot rroot ds (removeNodeLoc treeLoc p) with
      | none => none
      | some r => some (Act.rmLocalDir p :: r.1, r.2)

/-- `Synchronizer._handle_deletions`: propagate each side's deletions to the
other side, in source order (local documents, local folders, remote
documents, remote folders); `none` is the uncaught `AttributeError` raised
when a remotely deleted path has no local node. -/
def handle_deletions (lroot rroot : List String) (delLoc delRem : DelSet)
    (device : List FsNode) (treeRem treeLoc : List SNode) :
    Option (List Act × List FsNode × List SNode × List SNode) :=
  let r1 := loopLocDocs rroot delLoc.documents device treeRem
  let r2 := loopLocFolders rroot delLoc.folders r1.2.1 r1.2.2
  match loopRemDocs lroot rroot delRem.documents treeLoc with
  | none => none
  | some r3 =>
    match loopRemFolders lroot rroot delRem.folders r3.2 with
    | none => none
    | some r4 => some (r1.1 ++ r2.1 ++ r3.1 ++ r4.1, r2.2.1, r2.2.2, r4.2)

/-- The side effect of each `_handle_changes` branch, as trace actions:
a download (remote wins), an upload (local wins), or the `_askuser` prompt;
the chain's fall-through does nothing. -/
def hcActs (locPath remPath : List String) (ls rs : Option SyncState) :
    Option HCAct → List Act
  | none => []
  | some HCAct.download => [Act.download remPath locPath]
  | some HCAct.upload => [Act.upload locPath remPath]
  | some HCAct.ask => [Act.ask locPath ls rs]

/-- First loop of `Synchronizer._cmp_local2remote` over the remote tree:
a remote node whose translated path has a local node is compared only when it
is a document with a differing `file_size` (then `_handle_changes` runs);
an unmatched remote folder is created locally, an unmatched remote document
is downloaded (`remote_wins`). -/
def reconcileRemotePass (lroot rroot : List String) (treeLoc treeRem : List SNode) :
    List Act :=
  treeRem.flatMap (fun nrem =>
    let lp := fix_path4local lroot rroot nrem.node.path
    match getNodeByPath treeLoc lp with
    | some nloc =>
      if nrem.node.etype = EType.document ∧ ¬ nrem.node.size = nloc.node.size then
        hcActs nloc.node.path nrem.node.path nloc.sync_state nrem.sync_state
          (handle_changes nloc.sync_state nrem.sync_state)
      else []
    | none =>
      if nrem.node.etype = EType.folder then [Act.mkLocalDir lp]
      else [Act.download nrem.node.path lp])

/-- Second loop of `Synchronizer._cmp_local2remote` over the local tree:
an unmatched local folder is created remotely, an unmatched local document is
uploaded (`local_wins`). -/
def reconcileLocalPass (_lroot rroot : List String) (treeLoc treeRem : List SNode) :
    List Act :=
  treeLoc.flatMap (fun nloc =>
    let rp := fix_path4remote rroot nloc.node.path
    match getNodeByPath treeRem rp with
    | some _ => []
    | none =>
      if nloc.node.etype = EType.folder then [Act.mkRemoteDir rp]
      else [Act.upload nloc.node.path rp])

/-- `Synchronizer._cmp_local2remote`: the two reconciliation passes in source
order. -/
def cmp_local2remote (lroot rroot : List String) (treeLoc treeRem : List SNode) :
    List Act :=
  reconcileRemotePass lroot rroot treeLoc treeRem ++
    reconcileLocalPass lroot rroot treeLoc treeRem

/-- Result of one `Synchronizer.sync_folder` run: the action trace, the
remote store contents, and the two post-propagation in-memory trees. -/
structure RunResult where
  acts : List Act
  device : List FsNode
  treeRem : List SNode
  treeLoc : List SNode
deriving DecidableEq, Repr

/-- `Synchronizer.sync_folder`: diff both sides against their persisted
snapshots, propagate deletions, then reconcile the two current trees; `none`
is an uncaught exception aborting the run. -/
def sync_run (lroot rroot : List String) (oldRem oldLoc : Option (List FsNode))
    (curRem curLoc : List FsNode) (device : List FsNode) : Option RunResult :=
  let dr := cmpToOld oldRem curRem
  let dl := cmpToOld oldLoc curLoc
  match handle_deletions lroot rroot dl.dels dr.dels device dr.tree dl.tree with
  | none => none
  | some r =>
    some ⟨r.1 ++ cmp_local2remote lroot rroot r.2.2.2 r.2.2.1, r.2.1, r.2.2.1, r.2.2.2⟩

/-- A concrete remote store: the synced subtree root, a folder `f` under it,
and a document inside `f` (making `f` non-empty). -/
def c8device : List FsNode :=
  [⟨["Document", "R"], EType.folder, none, none, none⟩,
   ⟨["Document", "R", "f"], EType.folder, none, none, none⟩,
   ⟨["Document", "R", "f", "x.pdf"], EType.document, some 3, none, none⟩]

/-- The in-memory current remote tree over `c8device`. -/
def c8treeRem : List SNode := c8device.map (fun n => SNode.mk n (some SyncState.equal))

/-- Index of the last `'.'` in a filename (Python `p.rfind('.')`),
`none` when there is no dot. -/
def rfindDot : List Char → Option Nat
  | [] => none
  | c :: cs =>
    match rfindDot cs with
    | some i => some (i + 1)
    | none => if c = '.' then some 0 else none

/-- Modelled from `os.path.splitext(name)[1]` for a filename without path
separators: the extension starts at the last dot, unless every character
before that dot is itself a dot (leading dots do not start an extension). -/
def splitextExt (name : List Char) : List Char :=
  match rfindDot name with
  | none => []
  | some i =>
    if (name.take i).any (fun c => decide (¬ c = '.')) then name.drop i else []

/-- The filter of `LocalTree._create_tree`:
`osp.splitext(name)[1].lower() == ".pdf"` (`str.lower` modelled by
`Char.toLower` on the ASCII extension). -/
def isPdfName (name : String) : Bool :=
  decide ((splitextExt name.data).map Char.toLower = ['.', 'p', 'd', 'f'])

/-- One file yielded by the `os.walk` of `LocalTree._create_tree`: the
directory's path relative to `dirname(rootpath)`, the filename, `getsize` and
`getmtime`. -/
structure LFile where
  dir : List String
  fname : String
  fsize : Nat
  fmtime : Option DateTime
deriving DecidableEq, Repr

/-- The filesystem as seen by the `os.walk` of `LocalTree._create_tree`:
the basename of the root directory, the walked subdirectories (as paths
relative to `dirname(rootpath)`, so each starts with the root basename), and
the regular files. -/
structure LocalFs where
  rootbase : String
  dirs : List (List String)
  files : List LFile
deriving DecidableEq, Repr

/-- `LocalTree.rebuild_tree` (`_create_tree_root` + `_create_tree`): the root
folder node, a folder node per walked directory, and a document node for
exactly those files whose extension lowercases to `.pdf` (with `relpath =
dir ++ [name]`, `file_size` and `modified_date`); every other file is skipped.
The walk interleaves directories and files; the snapshot's node set is
order-independent, listed here as root, folders, documents. -/
def buildLocal (fs : LocalFs) : List FsNode :=
  ⟨[fs.rootbase], EType.folder, none, none, none⟩ ::
    (fs.dirs.map (fun p => ⟨p, EType.folder, none, none, none⟩) ++
      (fs.files.filter (fun f => isPdfName f.fname)).map
        (fun f => ⟨f.dir ++ [f.fname], EType.document, some f.fsize, none, f.fmtime⟩))

/-- A concrete local filesystem with one non-pdf file `r/notes.txt` and one
pdf `r/sub/x.pdf`. -/
def c10fs : LocalFs :=
  ⟨"r", [["r", "sub"]],
   [⟨["r"], "notes.txt", 7, none⟩, ⟨["r", "sub"], "x.pdf", 3, none⟩]⟩

/-- A converged remote snapshot: the synced subtree root and one pdf. -/
def c6remotePair : List FsNode :=
  [⟨["Document", "R"], EType.folder, none, none, none⟩,
   ⟨["Document", "R", "a.pdf"], EType.document, some 5, none, none⟩]

/-- The corresponding converged local snapshot. -/
def c6localPair : List FsNode :=
  [⟨["r"], EType.folder, none, none, none⟩,
   ⟨["r", "a.pdf"], EType.document, some 5, none, none⟩]

/-- The local disk after a first run that downloaded the remote document
`a.txt`: the file is on disk, but the snapshot builder skips it (not `.pdf`),
so both the current and the persisted local snapshots contain only the root. -/
def c6localFsBad : LocalFs := ⟨"r", [], [⟨["r"], "a.txt", 5, none⟩]⟩

/-- The unchanged remote snapshot holding `a.txt`. -/
def c6remoteBad : List FsNode :=
  [⟨["Document", "R"], EType.folder, none, none, none⟩,
   ⟨["Document", "R", "a.txt"], EType.document, some 5, none, none⟩]

/-- The decimal digit character of `n % 10`. -/
def dc (n : Nat) : Char := Nat.digitChar (n % 10)

/-- The numeric value of a digit character. -/
def dv (c : Char) : Nat := c.toNat - 48

/-- Two-digit zero-padded decimal rendering (`%02d`). -/
def pad2 (n : Nat) : List Char := [dc (n / 10), dc n]

/-- Four-digit zero-padded decimal rendering (`%04d`). -/
def pad4 (n : Nat) : List Char := [dc (n / 1000), dc (n / 100), dc (n / 10), dc n]

/-- Six-digit zero-padded decimal rendering (`%06d`). -/
def pad6 (n : Nat) : List Char :=
  [dc (n / 100000), dc (n / 10000), dc (n / 1000), dc (n / 100), dc (n / 10), dc n]

/-- Modelled from `datetime.isoformat()` for a naive datetime:
`YYYY-MM-DDTHH:MM:SS`, with `.ffffff` appended iff the microsecond field is
non-zero. -/
def DateTime.isoformat (d : DateTime) : List Char :=
  pad4 d.year ++ '-' :: pad2 d.month ++ '-' :: pad2 d.day ++
    'T' :: pad2 d.hour ++ ':' :: pad2 d.minute ++ ':' :: pad2 d.second ++
    (if d.microsecond = 0 then [] else '.' :: pad6 d.microsecond)

/-- The range constraints `datetime.datetime` enforces on its fields
(day bounded by 31; the per-month bound is irrelevant to the codec). -/
def DateTime.validB (d : DateTime) : Bool :=
  decide (1 ≤ d.year ∧ d.year ≤ 9999 ∧ 1 ≤ d.month ∧ d.month ≤ 12 ∧
    1 ≤ d.day ∧ d.day ≤ 31 ∧ d.hour ≤ 23 ∧ d.minute ≤ 59 ∧ d.second ≤ 59 ∧
    d.microsecond ≤ 999999)

/-- Value of two digit characters. -/
def v2 (a b : Char) : Nat := 10 * dv a + dv b

/-- Value of four digit characters. -/
def v4 (a b c d : Char) : Nat := 1000 * dv a + 100 * dv b + 10 * dv c + dv d

/-- Value of six digit characters. -/
def v6 (a b c d e f : Char) : Nat :=
  100000 * dv a + 10000 * dv b + 1000 * dv c + 100 * dv d + 10 * dv e + dv f

/-- Modelled from `datetime.fromisoformat` on the layouts `isoformat` emits
for naive datetimes: `YYYY-MM-DD{T| }HH:MM:SS` with an optional `.ffffff`;
digit positions must hold digits and the resulting fields must be in range,
otherwise the parse fails (Python raises `ValueError`). -/
def DateTime.fromisoformat : List Char → Option DateTime
  | [y1, y2, y3, y4, h1, m1, m2, h2, d1, d2, sep, o1, o2, c1, n1, n2, c2, s1, s2] =>
    if h1 = '-' ∧ h2 = '-' ∧ (sep = 'T' ∨ sep = ' ') ∧ c1 = ':' ∧ c2 = ':' ∧
        ([y1, y2, y3, y4, m1, m2, d1, d2, o1, o2, n1, n2, s1, s2].all Char.isDigit) then
      let dt : DateTime :=
        ⟨v4 y1 y2 y3 y4, v2 m1 m2, v2 d1 d2, v2 o1 o2, v2 n1 n2, v2 s1 s2, 0⟩
      if dt.validB then some dt else none
    else none
  | [y1, y2, y3, y4, h1, m1, m2, h2, d1, d2, sep, o1, o2, c1, n1, n2, c2, s1, s2,
      dot, u1, u2, u3, u4, u5, u6] =>
    if h1 = '-' ∧ h2 = '-' ∧ (sep = 'T' ∨ sep = ' ') ∧ c1 = ':' ∧ c2 = ':' ∧
        dot = '.' ∧
        ([y1, y2, y3, y4, m1, m2, d1, d2, o1, o2, n1, n2, s1, s2,
          u1, u2, u3, u4, u5, u6].all Char.isDigit) then
      let dt : DateTime :=
        ⟨v4 y1 y2 y3 y4, v2 m1 m2, v2 d1 d2, v2 o1 o2, v2 n1 n2, v2 s1 s2,
          v6 u1 u2 u3 u4 u5 u6⟩
      if dt.validB then some dt else none
    else none
  | _ => none

/-- JSON values, as produced by the `anytree` `JsonExporter` and consumed by
the `JsonImporter` (string contents kept as character lists). -/
inductive JValue where
  | jnull
  | jnum (n : Nat)
  | jstr (s : List Char)
  | jarr (xs : List JValue)
  | jobj (fields : List (String × JValue))

/-- `tools.default`: a `datetime` attribute is serialized as
`{"_isoformat": obj.isoformat()}`; an absent one as JSON `null`. -/
def jsonOfDate : Option DateTime → JValue
  | none => JValue.jnull
  | some dt => JValue.jobj [("_isoformat", JValue.jstr dt.isoformat)]

/-- `tools.object_hook`: an object carrying `_isoformat` is turned back into
a `datetime` via `fromisoformat`; `null` stays absent; anything else is not a
date. -/
def dateOfJson : JValue → Option (Option DateTime)
  | JValue.jnull => some none
  | JValue.jobj [(k, JValue.jstr s)] =>
    if k = "_isoformat" then (DateTime.fromisoformat s).map some else none
  | _ => none

/-- `file_size` serialization: a number or `null`. -/
def jsonOfSize : Option Nat → JValue
  | none => JValue.jnull
  | some k => JValue.jnum k

def sizeOfJson : JValue → Option (Option Nat)
  | JValue.jnull => some none
  | JValue.jnum k => some (some k)
  | _ => none

/-- `entry_type` serialization. -/
def jsonOfEtype : EType → JValue
  | EType.document => JValue.jstr "document".data
  | EType.folder => JValue.jstr "folder".data

def etypeOfJson : JValue → Option EType
  | JValue.jstr s =>
    if s = "document".data then some EType.document
    else if s = "folder".data then some EType.folder
    else none
  | _ => none

/-- Path serialization: the component list as a JSON array of strings. -/
def jsonOfPath (p : List String) : JValue :=
  JValue.jarr (p.map (fun c => JValue.jstr c.data))

def compsOfJson : List JValue → Option (List String)
  | [] => some []
  | JValue.jstr s :: xs =>
    match compsOfJson xs with
    | some cs => some (String.mk s :: cs)
    | none => none
  | _ => none

def pathOfJson : JValue → Option (List String)
  | JValue.jarr xs => compsOfJson xs
  | _ => none

/-- One exported snapshot node (`JsonExporter` over the node attributes,
dates through `tools.default`). -/
def exportNode (n : FsNode) : JValue :=
  JValue.jobj [("entry_path", jsonOfPath n.path),
    ("entry_type", jsonOfEtype n.etype),
    ("file_size", jsonOfSize n.size),
    ("created_date", jsonOfDate n.created),
    ("modified_date", jsonOfDate n.mtime)]

/-- One imported snapshot node (`JsonImporter` + `DictImporter`, dates through
`tools.object_hook`). -/
def parseNode : JValue → Option FsNode
  | JValue.jobj [("entry_path", jp), ("entry_type", jt), ("file_size", js),
      ("created_date", jc), ("modified_date", jm)] =>
    match pathOfJson jp, etypeOfJson jt, sizeOfJson js, dateOfJson jc, dateOfJson jm with
    | some p, some t, some s, some c, some m => some ⟨p, t, s, c, m⟩
    | _, _, _, _, _ => none
  | _ => none

/-- `save_to_file`: the snapshot's nodes, each exported (the tree nesting is
carried by the full paths of the pre-order listing). -/
def exportSnap (t : List FsNode) : JValue := JValue.jarr (t.map exportNode)

def parseNodes : List JValue → Option (List FsNode)
  | [] => some []
  | x :: xs =>
    match parseNode x, parseNodes xs with
    | some n, some ns => some (n :: ns)
    | _, _ => none

/-- `load_from_file`: parse every node back. -/
def parseSnap : JValue → Option (List FsNode)
  | JValue.jarr xs => parseNodes xs
  | _ => none

/-- An absent timestamp is fine; a present one must be a valid datetime. -/
def validDateO : Option DateTime → Bool
  | none => true
  | some d => d.validB

/-- Timestamps (when present) of every node of a snapshot are valid
datetimes. -/
def validSnap (t : List FsNode) : Bool :=
  t.all (fun n => validDateO n.created && validDateO n.mtime)

/-- A concrete snapshot, with and without microseconds and absent dates. -/
def c7snap : List FsNode :=
  [⟨["Document", "R"], EType.folder, none, some ⟨2017, 12, 12, 13, 53, 50, 0⟩, none⟩,
   ⟨["Document", "R", "a.pdf"], EType.document, some 100,
     some ⟨2018, 3, 5, 14, 30, 0, 0⟩, some ⟨2019, 5, 6, 7, 8, 9, 123456⟩⟩]

/-- C1: For non-`None` sync states (the decision table's domain), the action
chosen by `_handle_changes` is upload exactly for (local modified, remote
equal), download exactly for (local equal, remote modified), and the
interactive resolution (`_askuser`) in every other of the nine cells. -/
theorem c1_conflict_table (l r : SyncState) :
    handle_changes (some l) (some r) =
      some (if l = SyncState.modified ∧ r = SyncState.equal then HCAct.upload
        else if l = SyncState.equal ∧ r = SyncState.modified then HCAct.download
        else HCAct.ask) := by
  cases l <;> cases r <;> rfl

/-- C2, counterexample: on a first-ever sync (`oldtree is None`) the deletion
sets are empty, but the current node's `sync_state` is left `None`, not set to
`"new"` — the `"new"` assignment loop runs only inside the
`if oldtree is not None` branch. -/
theorem c2_first_sync_counterexample :
    (cmpToOld none [nodeA]).dels = ⟨[], []⟩ ∧
    ¬ (∀ m ∈ (cmpToOld none [nodeA]).tree, m.sync_state = some SyncState.new) := by
  decide

/-- C2, amended: when no persisted snapshot exists, the per-side diff returns
empty deletion sets, prints the warning (does not raise), and leaves every
node's `sync_state` unset (`None`) — the `"new"` default is applied only when
a persisted snapshot exists. -/
theorem c2_first_sync_amended (cur : List FsNode) :
    cmpToOld none cur = ⟨⟨[], []⟩, cur.map (fun n => SNode.mk n none), true⟩ := rfl

/-- C3: for a document present in both snapshots, `_check_node` assigns
`"equal"` iff the persisted and current `file_size` agree and `"modified"` iff
they differ; both nodes carry arbitrary timestamps, so the classification is
independent of any timestamp difference.  For a folder present in both, the
state is always `"equal"`. -/
theorem c3_size_only_classification (old cur : FsNode) :
    (old.etype = EType.document → cur.etype = EType.document →
      ((check_node old cur = SyncState.equal ↔ old.size = cur.size) ∧
       (check_node old cur = SyncState.modified ↔ ¬ old.size = cur.size)))
  ∧ (old.etype = EType.folder → cur.etype = EType.folder →
      check_node old cur = SyncState.equal) := by
  constructor
  · intro hd _
    by_cases hs : old.size = cur.size <;> simp [check_node, hd, hs]
  · intro hf _
    simp [check_node, hf]

/-- C3, witness: two documents of sizes 100 and 150 (differing timestamps)
are classified `"modified"`. -/
theorem c3_size_only_witness :
    check_node ⟨["r", "a.pdf"], EType.document, some 100, none,
        some ⟨2018, 1, 1, 0, 0, 0, 0⟩⟩
      ⟨["r", "a.pdf"], EType.document, some 150, none,
        some ⟨2019, 5, 6, 7, 8, 9, 0⟩⟩ = SyncState.modified :=
  ((c3_size_only_classification _ _).1 rfl rfl).2.mpr (by decide)

/-- C4, counterexample: a path that was a folder in the persisted snapshot and
is a document in the current snapshot is matched by path across kinds:
`_check_node` classifies it `"equal"` (the old node is not a document), and
neither a deletion nor a creation is recorded. -/
theorem c4_cross_kind_counterexample :
    (cmpToOld (some [⟨["r", "a"], EType.folder, none, none, none⟩])
        [⟨["r", "a"], EType.document, some 5, none, none⟩]).dels = ⟨[], []⟩ ∧
    (cmpToOld (some [⟨["r", "a"], EType.folder, none, none, none⟩])
        [⟨["r", "a"], EType.document, some 5, none, none⟩]).tree =
      [⟨⟨["r", "a"], EType.document, some 5, none, none⟩, some SyncState.equal⟩] := by
  decide

/-- C4, amended: a path present in both snapshots is matched purely by path,
regardless of kind: the diff classifies the current node by `_check_node`
(`"equal"` when the old node is a folder; size comparison when the old node is
a document, where a folder's `file_size` is `None`) and records no deletion
and no creation for it, even when the kind changed between the runs. -/
theorem c4_cross_kind_amended (p : List String) (e1 e2 : EType) (s1 s2 : Option Nat)
    (t1 t2 u1 u2 : Option DateTime) :
    cmpToOld (some [⟨p, e1, s1, t1, u1⟩]) [⟨p, e2, s2, t2, u2⟩] =
      ⟨⟨[], []⟩,
       [⟨⟨p, e2, s2, t2, u2⟩, some (check_node ⟨p, e1, s1, t1, u1⟩ ⟨p, e2, s2, t2, u2⟩)⟩],
       false⟩ := by
  simp [cmpToOld, diffStep, getNodeByPath, List.find?, setState, markNew]

theorem commonStemLen_append (s r : List String) : commonStemLen (s ++ r) s = s.length := by
  induction s with
  | nil => cases r <;> simp [commonStemLen]
  | cons a as ih => simp [commonStemLen, ih]

theorem relpathComps_append (s r : List String) :
    relpathComps (s ++ r) s = if r = [] then ["."] else r := by
  simp [relpathComps, commonStemLen_append, List.drop_left]

theorem relpathComps_self (s : List String) : relpathComps s s = ["."] := by
  simpa using relpathComps_append s []

/-- C5: the two path translations are exact inverses on every normalized path
under the sync roots: a remote path `remote_root ++ rest` survives
`_fix_path4remote ∘ _fix_path4local`, and a local path
`basename(local_root) :: rest` survives `_fix_path4local ∘ _fix_path4remote`. -/
theorem c5_path_translation_inverse (lroot rroot rest : List String)
    (hnorm : ∀ c ∈ rest, ¬ c = "." ∧ ¬ c = "..") :
    fix_path4remote rroot (fix_path4local lroot rroot (rroot ++ rest)) = rroot ++ rest
  ∧ fix_path4local lroot rroot (fix_path4remote rroot (lastD lroot :: rest)) =
      lastD lroot :: rest := by
  have hdot : ¬ rest = ["."] := by
    intro h
    exact (hnorm "." (by simp [h])).1 rfl
  cases rest with
  | nil =>
    constructor
    · simp [fix_path4local, relpathComps_self, fix_path4remote]
    · simp [fix_path4remote, fix_path4local, relpathComps_self]
  | cons c cs =>
    constructor
    · simp [fix_path4local, relpathComps_append, hdot, fix_path4remote]
    · simp [fix_path4remote, fix_path4local, relpathComps_append, hdot]

/-- C5, witness: round trips at the concrete roots
`local_root = /home/u/reader`, `remote_root = Document/Reader` and relative
path `sub/x.pdf`. -/
theorem c5_path_translation_witness :
    fix_path4remote ["Document", "Reader"]
        (fix_path4local ["", "home", "u", "reader"] ["Document", "Reader"]
          (["Document", "Reader"] ++ ["sub", "x.pdf"])) =
      ["Document", "Reader"] ++ ["sub", "x.pdf"]
  ∧ fix_path4local ["", "home", "u", "reader"] ["Document", "Reader"]
        (fix_path4remote ["Document", "Reader"]
          (lastD ["", "home", "u", "reader"] :: ["sub", "x.pdf"])) =
      lastD ["", "home", "u", "reader"] :: ["sub", "x.pdf"] :=
  c5_path_translation_inverse _ _ _ (by decide)

theorem getNodeByPath_eq_none (t : List SNode) (p : List String)
    (h : ∀ m ∈ t, ¬ m.node.path = p) : getNodeByPath t p = none := by
  rw [getNodeByPath, List.find?_eq_none]
  intro m hm
  simpa using h m hm

theorem getNodeByPath_filter_none (t : List SNode) (f : SNode → Bool) (p : List String)
    (h : getNodeByPath t p = none) : getNodeByPath (t.filter f) p = none := by
  rw [getNodeByPath, List.find?_eq_none] at h ⊢
  intro m hm
  exact h m (List.mem_of_mem_filter hm)

theorem getNodeByPath_removeNodeRem_self (t : List SNode) (q : List String) :
    getNodeByPath (removeNodeRem t q) q = none := by
  unfold removeNodeRem
  by_cases h : (getNodeByPath t q).isSome
  · rw [if_pos h]
    apply getNodeByPath_eq_none
    intro m hm hp
    have := List.of_mem_filter hm
    simp only [decide_eq_true_eq] at this
    exact this (by rw [hp, List.take_length])
  · rw [if_neg h]
    exact Option.not_isSome_iff_eq_none.mp h

/-- C8, amended: when the device rejects deletion of a non-empty folder during
deletion propagation, the rejection is reported (the printed error), the run
continues (the loop returns normally) and the remote store keeps the folder —
but the folder node is nevertheless removed from the in-memory remote tree,
because `_handle_deletions` calls `tree_rem.remove_node` unconditionally after
`rm_dir`. -/
theorem c8_nonempty_dir_rejection (rroot d : List String) (device : List FsNode)
    (treeRem : List SNode)
    (hpresent : (getNodeByPath treeRem (fix_path4remote rroot d)).isSome = true)
    (hnonempty : ¬ countChildren device (fix_path4remote rroot d) = 0) :
    (loopLocFolders rroot [d] device treeRem).1 =
        [Act.reportNonEmptyDir (fix_path4remote rroot d)] ∧
    (loopLocFolders rroot [d] device treeRem).2.1 = device ∧
    getNodeByPath (loopLocFolders rroot [d] device treeRem).2.2
        (fix_path4remote rroot d) = none := by
  refine ⟨?_, ?_, ?_⟩ <;>
    simp [loopLocFolders, dp_rm_dir, hpresent, if_neg hnonempty,
      getNodeByPath_removeNodeRem_self]

/-- C8, counterexample: folder `r/f` was deleted locally, but the remote `f`
is non-empty.  `_handle_deletions` completes (run not aborted) and the device
rejects the deletion (only the error report appears, the store is returned
unchanged with `f` still in it), yet the folder node does NOT remain in the
in-memory remote snapshot: `remove_node` has removed it (and its subtree). -/
theorem c8_counterexample :
    handle_deletions ["r"] ["Document", "R"] ⟨[], [["r", "f"]]⟩ ⟨[], []⟩
        c8device c8treeRem [] =
      some ([Act.reportNonEmptyDir ["Document", "R", "f"]], c8device,
        [⟨⟨["Document", "R"], EType.folder, none, none, none⟩, some SyncState.equal⟩],
        []) ∧
    getNodeByPath
        [SNode.mk ⟨["Document", "R"], EType.folder, none, none, none⟩
          (some SyncState.equal)] ["Document", "R", "f"] = none := by
  decide

/-- C8, witness for the amended theorem: the same concrete non-empty-folder
scenario, through the `deletions_loc["folders"]` loop. -/
theorem c8_nonempty_dir_witness :
    (loopLocFolders ["Document", "R"] [["r", "f"]] c8device c8treeRem).1 =
        [Act.reportNonEmptyDir (fix_path4remote ["Document", "R"] ["r", "f"])] ∧
    (loopLocFolders ["Document", "R"] [["r", "f"]] c8device c8treeRem).2.1 = c8device ∧
    getNodeByPath (loopLocFolders ["Document", "R"] [["r", "f"]] c8device c8treeRem).2.2
        (fix_path4remote ["Document", "R"] ["r", "f"]) = none :=
  c8_nonempty_dir_rejection ["Document", "R"] ["r", "f"] c8device c8treeRem
    (by decide) (by decide)

theorem getNodeByPath_removeNodeLoc_none (t : List SNode) (q p : List String)
    (h : getNodeByPath t p = none) : getNodeByPath (removeNodeLoc t q) p = none :=
  getNodeByPath_filter_none t _ p h

theorem loopRemDocs_absent_none (lroot rroot : List String) (ds : List (List String))
    (tl : List SNode) (d : List String) (hd : d ∈ ds)
    (habs : getNodeByPath tl (fix_path4local lroot rroot d) = none) :
    loopRemDocs lroot rroot ds tl = none := by
  induction ds generalizing tl with
  | nil => cases hd
  | cons d0 ds ih =>
    rcases List.mem_cons.mp hd with rfl | hmem
    · simp only [loopRemDocs, habs]
    · cases hfind : getNodeByPath tl (fix_path4local lroot rroot d0) with
      | none => simp only [loopRemDocs, hfind]
      | some m =>
        have := ih (removeNodeLoc tl (fix_path4local lroot rroot d0)) hmem
          (getNodeByPath_removeNodeLoc_none _ _ _ habs)
        simp only [loopRemDocs, hfind, this]

theorem loopRemFolders_absent_none (lroot rroot : List String) (ds : List (List String))
    (tl : List SNode) (d : List String) (hd : d ∈ ds)
    (habs : getNodeByPath tl (fix_path4local lroot rroot d) = none) :
    loopRemFolders lroot rroot ds tl = none := by
  induction ds generalizing tl with
  | nil => cases hd
  | cons d0 ds ih =>
    rcases List.mem_cons.mp hd with rfl | hmem
    · simp only [loopRemFolders, habs]
    · cases hfind : getNodeByPath tl (fix_path4local lroot rroot d0) with
      | none => simp only [loopRemFolders, hfind]
      | some m =>
        have := ih (removeNodeLoc tl (fix_path4local lroot rroot d0)) hmem
          (getNodeByPath_removeNodeLoc_none _ _ _ habs)
        simp only [loopRemFolders, hfind, this]

theorem loopRemDocs_some_absent (lroot rroot : List String) (ds : List (List String))
    (tl : List SNode) (r : List Act × List SNode) (p : List String)
    (hrun : loopRemDocs lroot rroot ds tl = some r)
    (habs : getNodeByPath tl p = none) : getNodeByPath r.2 p = none := by
  induction ds generalizing tl r with
  | nil =>
    simp only [loopRemDocs] at hrun
    cases hrun
    exact habs
  | cons d0 ds ih =>
    simp only [loopRemDocs] at hrun
    cases hfind : getNodeByPath tl (fix_path4local lroot rroot d0) with
    | none => rw [hfind] at hrun; cases hrun
    | some m =>
      rw [hfind] at hrun
      cases hrec : loopRemDocs lroot rroot ds
          (removeNodeLoc tl (fix_path4local lroot rroot d0)) with
      | none => rw [hrec] at hrun; cases hrun
      | some r0 =>
        rw [hrec] at hrun
        cases hrun
        exact ih _ r0 hrec (getNodeByPath_removeNodeLoc_none _ _ _ habs)

theorem setState_nodes (t : List SNode) (p : List String) (s : SyncState) :
    (setState t p s).map SNode.node = t.map SNode.node := by
  unfold setState
  rw [List.map_map]
  apply List.map_congr_left
  intro m _
  by_cases h : m.node.path = p <;> simp [h]

theorem getNodeByPath_setState_none (t : List SNode) (q p : List String) (s : SyncState)
    (h : getNodeByPath t p = none) : getNodeByPath (setState t q s) p = none := by
  rw [getNodeByPath, List.find?_eq_none] at h ⊢
  intro m hm
  unfold setState at hm
  rcases List.mem_map.mp hm with ⟨m0, hm0, rfl⟩
  have := h m0 hm0
  by_cases hq : m0.node.path = q <;> simp_all

theorem diffStep_docs_mono (acc : DelSet × List SNode) (o : FsNode) (p : List String)
    (h : p ∈ acc.1.documents) : p ∈ (diffStep acc o).1.documents := by
  unfold diffStep
  cases getNodeByPath acc.2 o.path with
  | some m => exact h
  | none =>
    by_cases ho : o.etype = EType.document <;> simp [ho, List.mem_append, h]

theorem diffStep_folders_mono (acc : DelSet × List SNode) (o : FsNode) (p : List String)
    (h : p ∈ acc.1.folders) : p ∈ (diffStep acc o).1.folders := by
  unfold diffStep
  cases getNodeByPath acc.2 o.path with
  | some m => exact h
  | none =>
    by_cases ho : o.etype = EType.document <;> simp [ho, List.mem_append, h]

theorem foldl_diffStep_docs_mono (olds : List FsNode) (d : DelSet) (acc : List SNode)
    (p : List String) (h : p ∈ d.documents) :
    p ∈ (olds.foldl diffStep (d, acc)).1.documents := by
  induction olds generalizing d acc with
  | nil => exact h
  | cons o os ih =>
    rw [List.foldl_cons]
    exact ih _ _ (diffStep_docs_mono (d, acc) o p h)

theorem foldl_diffStep_folders_mono (olds : List FsNode) (d : DelSet) (acc : List SNode)
    (p : List String) (h : p ∈ d.folders) :
    p ∈ (olds.foldl diffStep (d, acc)).1.folders := by
  induction olds generalizing d acc with
  | nil => exact h
  | cons o os ih =>
    rw [List.foldl_cons]
    exact ih _ _ (diffStep_folders_mono (d, acc) o p h)

theorem diff_deleted_doc_mem (olds : List FsNode) (d : DelSet) (acc : List SNode)
    (o : FsNode) (ho : o ∈ olds) (hdoc : o.etype = EType.document)
    (habs : getNodeByPath acc o.path = none) :
    o.path ∈ (olds.foldl diffStep (d, acc)).1.documents := by
  induction olds generalizing d acc with
  | nil => cases ho
  | cons o0 os ih =>
    rw [List.foldl_cons]
    rcases List.mem_cons.mp ho with rfl | hmem
    · have hstep : diffStep (d, acc) o = (⟨d.documents ++ [o.path], d.folders⟩, acc) := by
        unfold diffStep
        rw [habs]
        simp [hdoc]
      rw [hstep]
      exact foldl_diffStep_docs_mono os _ acc o.path (by simp)
    · unfold diffStep
      cases hfind : getNodeByPath acc o0.path with
      | some m =>
        exact ih _ _ hmem (getNodeByPath_setState_none acc o0.path o.path _ habs)
      | none =>
        by_cases h0 : o0.etype = EType.document <;> simp [h0] <;> exact ih _ _ hmem habs

theorem diff_deleted_folder_mem (olds : List FsNode) (d : DelSet) (acc : List SNode)
    (o : FsNode) (ho : o ∈ olds) (hfold : o.etype = EType.folder)
    (habs : getNodeByPath acc o.path = none) :
    o.path ∈ (olds.foldl diffStep (d, acc)).1.folders := by
  induction olds generalizing d acc with
  | nil => cases ho
  | cons o0 os ih =>
    rw [List.foldl_cons]
    rcases List.mem_cons.mp ho with rfl | hmem
    · have hstep : diffStep (d, acc) o = (⟨d.documents, d.folders ++ [o.path]⟩, acc) := by
        unfold diffStep
        rw [habs]
        simp [hfold]
      rw [hstep]
      exact foldl_diffStep_folders_mono os _ acc o.path (by simp)
    · unfold diffStep
      cases hfind : getNodeByPath acc o0.path with
      | some m =>
        exact ih _ _ hmem (getNodeByPath_setState_none acc o0.path o.path _ habs)
      | none =>
        by_cases h0 : o0.etype = EType.document <;> simp [h0] <;> exact ih _ _ hmem habs

theorem markNew_nodes (t : List SNode) : (markNew t).map SNode.node = t.map SNode.node := by
  unfold markNew
  rw [List.map_map]
  apply List.map_congr_left
  intro m _
  by_cases h : m.sync_state = none <;> simp [h]

theorem diffStep_nodes (acc : DelSet × List SNode) (o : FsNode) :
    ((diffStep acc o).2).map SNode.node = acc.2.map SNode.node := by
  unfold diffStep
  cases getNodeByPath acc.2 o.path with
  | some m => exact setState_nodes acc.2 o.path _
  | none => by_cases h0 : o.etype = EType.document <;> simp [h0]

theorem foldl_diffStep_nodes (olds : List FsNode) (d : DelSet) (acc : List SNode) :
    ((olds.foldl diffStep (d, acc)).2).map SNode.node = acc.map SNode.node := by
  induction olds generalizing d acc with
  | nil => rfl
  | cons o os ih =>
    rw [List.foldl_cons]
    have h := diffStep_nodes (d, acc) o
    cases hstep : diffStep (d, acc) o with
    | mk d1 acc1 =>
      rw [hstep] at h
      rw [ih d1 acc1, h]

theorem cmpToOld_nodes (o : Option (List FsNode)) (cur : List FsNode) :
    ((cmpToOld o cur).tree).map SNode.node = cur := by
  cases o with
  | none =>
    simp only [cmpToOld, List.map_map]
    exact List.map_id cur
  | some old =>
    simp only [cmpToOld]
    rw [markNew_nodes, foldl_diffStep_nodes, List.map_map]
    exact List.map_id cur

theorem getNodeByPath_of_nodes_absent (t : List SNode) (cur : List FsNode)
    (p : List String) (hnodes : t.map SNode.node = cur)
    (habs : ∀ n ∈ cur, ¬ n.path = p) : getNodeByPath t p = none := by
  apply getNodeByPath_eq_none
  intro m hm
  exact habs m.node (hnodes ▸ List.mem_map_of_mem SNode.node hm)

/-- C9: deletion propagation assumes every remotely deleted path still has a
node in the current local tree.  If a path was deleted on both sides since the
last sync (present in the persisted remote snapshot, absent from both current
snapshots), `_handle_deletions` dereferences the `None` result of
`tree_loc.get_node_by_path(...)` (`.abspath`) and the run aborts with an
uncaught exception instead of completing. -/
theorem c9_double_deletion_crash (lroot rroot : List String)
    (oldRem : List FsNode) (oldLoc : Option (List FsNode))
    (curRem curLoc device : List FsNode) (g : FsNode)
    (hmem : g ∈ oldRem)
    (habsRem : ∀ n ∈ curRem, ¬ n.path = g.path)
    (habsLoc : ∀ n ∈ curLoc, ¬ n.path = fix_path4local lroot rroot g.path) :
    sync_run lroot rroot (some oldRem) oldLoc curRem curLoc device = none := by
  have habsRem0 : getNodeByPath ((cmpToOld (some oldRem) curRem).tree) g.path = none :=
    getNodeByPath_of_nodes_absent _ _ _ (cmpToOld_nodes _ _) habsRem
  have habsRem1 : getNodeByPath (curRem.map (fun n => SNode.mk n none)) g.path = none := by
    apply getNodeByPath_eq_none
    intro m hm
    rcases List.mem_map.mp hm with ⟨n, hn, rfl⟩
    exact habsRem n hn
  have habsLoc0 : getNodeByPath ((cmpToOld oldLoc curLoc).tree)
      (fix_path4local lroot rroot g.path) = none :=
    getNodeByPath_of_nodes_absent _ _ _ (cmpToOld_nodes _ _) habsLoc
  unfold sync_run
  cases hety : g.etype with
  | document =>
    have hdel : g.path ∈ (cmpToOld (some oldRem) curRem).dels.documents := by
      simp only [cmpToOld]
      exact diff_deleted_doc_mem oldRem _ _ g hmem hety habsRem1
    have hloop := loopRemDocs_absent_none lroot rroot
      ((cmpToOld (some oldRem) curRem).dels.documents)
      ((cmpToOld oldLoc curLoc).tree) g.path hdel habsLoc0
    simp only [handle_deletions, hloop]
  | folder =>
    have hdel : g.path ∈ (cmpToOld (some oldRem) curRem).dels.folders := by
      simp only [cmpToOld]
      exact diff_deleted_folder_mem oldRem _ _ g hmem hety habsRem1
    simp only [handle_deletions]
    cases hdocs : loopRemDocs lroot rroot ((cmpToOld (some oldRem) curRem).dels.documents)
        ((cmpToOld oldLoc curLoc).tree) with
    | none => rfl
    | some r3 =>
      have habs3 : getNodeByPath r3.2 (fix_path4local lroot rroot g.path) = none :=
        loopRemDocs_some_absent lroot rroot _ _ r3 _ hdocs habsLoc0
      have hloop := loopRemFolders_absent_none lroot rroot
        ((cmpToOld (some oldRem) curRem).dels.folders) r3.2 g.path hdel habs3
      simp only [hloop]

/-- C9, witness: remote document `Document/R/x.pdf` was in the persisted
remote snapshot but is gone from the current remote tree AND from the current
local tree — the run crashes. -/
theorem c9_double_deletion_witness :
    sync_run ["r"] ["Document", "R"]
        (some [⟨["Document", "R", "x.pdf"], EType.document, some 5, none, none⟩])
        (some []) [] [] [] = none :=
  c9_double_deletion_crash ["r"] ["Document", "R"] _ _ _ _ _
    ⟨["Document", "R", "x.pdf"], EType.document, some 5, none, none⟩
    (by decide) (by decide) (by decide)

theorem buildLocal_doc_pdf (fs : LocalFs) (n : FsNode) (hn : n ∈ buildLocal fs)
    (hdoc : n.etype = EType.document) :
    ∃ f ∈ fs.files, isPdfName f.fname = true ∧ n.path = f.dir ++ [f.fname] := by
  unfold buildLocal at hn
  rcases List.mem_cons.mp hn with rfl | hn
  · simp at hdoc
  · rcases List.mem_append.mp hn with hd | hf
    · rcases List.mem_map.mp hd with ⟨p, hp, rfl⟩
      simp at hdoc
    · rcases List.mem_map.mp hf with ⟨f, hfmem, rfl⟩
      have hflt := List.mem_filter.mp hfmem
      exact ⟨f, hflt.1, hflt.2, rfl⟩

theorem last_eq_of_append_singleton (as bs : List String) (a b : String)
    (h : as ++ [a] = bs ++ [b]) : a = b := by
  have := (List.append_inj' h (by simp)).2
  simpa using this

theorem foldl_diffStep_docs_src (olds : List FsNode) (d : DelSet) (acc : List SNode)
    (q : List String) (hq : q ∈ (olds.foldl diffStep (d, acc)).1.documents) :
    q ∈ d.documents ∨ ∃ o ∈ olds, o.etype = EType.document ∧ o.path = q := by
  induction olds generalizing d acc with
  | nil => exact Or.inl hq
  | cons o os ih =>
    rw [List.foldl_cons] at hq
    unfold diffStep at hq
    cases hfind : getNodeByPath acc o.path with
    | some m =>
      rw [hfind] at hq
      rcases ih _ _ hq with h | ⟨o1, ho1, h1⟩
      · exact Or.inl h
      · exact Or.inr ⟨o1, List.mem_cons_of_mem o ho1, h1⟩
    | none =>
      rw [hfind] at hq
      by_cases h0 : o.etype = EType.document
      · rw [if_pos h0] at hq
        rcases ih _ _ hq with h | ⟨o1, ho1, h1⟩
        · rcases List.mem_append.mp h with h | h
          · exact Or.inl h
          · exact Or.inr ⟨o, List.mem_cons_self o os, h0, (List.mem_singleton.mp h).symm⟩
        · exact Or.inr ⟨o1, List.mem_cons_of_mem o ho1, h1⟩
      · rw [if_neg h0] at hq
        rcases ih _ _ hq with h | ⟨o1, ho1, h1⟩
        · exact Or.inl h
        · exact Or.inr ⟨o1, List.mem_cons_of_mem o ho1, h1⟩

theorem hcActs_cases (lp rp : List String) (ls rs : Option SyncState) (h : Option HCAct)
    (a : Act) (ha : a ∈ hcActs lp rp ls rs h) :
    a = Act.download rp lp ∨ a = Act.upload lp rp ∨ a = Act.ask lp ls rs := by
  cases h with
  | none => cases ha
  | some hc => cases hc <;> simp [hcActs] at ha <;> simp [ha]

/-- C10: a local file whose extension does not lowercase to `.pdf` is
invisible to the engine: (1) the local snapshot has no document node at its
path (so the diff never classifies it), (2) its path never enters the
documents deletion bucket of the local diff — deleting it locally is never
propagated to the remote side — and (3) no reconciliation pass ever uploads
it (no upload action carries its path as source), for any persisted snapshot
and any remote tree. -/
theorem c10_nonpdf_invisible (fs oldFs : LocalFs) (oldT : Option (List FsNode))
    (lroot rroot : List String) (treeRem : List SNode) (f : LFile)
    (hmemf : f ∈ fs.files) (hnp : isPdfName f.fname = false)
    (hdirs : ¬ f.dir ++ [f.fname] ∈ fs.dirs)
    (hroot : ¬ f.dir ++ [f.fname] = [fs.rootbase]) :
    (∀ n ∈ buildLocal fs, ¬ (n.path = f.dir ++ [f.fname] ∧ n.etype = EType.document)) ∧
    (¬ f.dir ++ [f.fname] ∈
        (cmpToOld (some (buildLocal oldFs)) (buildLocal fs)).dels.documents) ∧
    (∀ a ∈ cmp_local2remote lroot rroot ((cmpToOld oldT (buildLocal fs)).tree) treeRem,
      ∀ rp, ¬ a = Act.upload (f.dir ++ [f.fname]) rp) := by
  have hfile := hmemf
  have hnodoc : ∀ g : LocalFs, ∀ n ∈ buildLocal g,
      ¬ (n.path = f.dir ++ [f.fname] ∧ n.etype = EType.document) := by
    intro g n hn hand
    rcases buildLocal_doc_pdf g n hn hand.2 with ⟨f1, _, hpdf, hpath⟩
    have hfn : f1.fname = f.fname :=
      last_eq_of_append_singleton f1.dir f.dir f1.fname f.fname (hpath ▸ hand.1)
    rw [hfn] at hpdf
    rw [hpdf] at hnp
    cases hnp
  refine ⟨hnodoc fs, ?_, ?_⟩
  · intro hmem
    simp only [cmpToOld] at hmem
    rcases foldl_diffStep_docs_src _ _ _ _ hmem with h | ⟨o, ho, hodoc, hop⟩
    · cases h
    · exact hnodoc oldFs o ho ⟨hop, hodoc⟩
  · have habs : ∀ m ∈ (cmpToOld oldT (buildLocal fs)).tree,
        ¬ m.node.path = f.dir ++ [f.fname] := by
      intro m hm hp
      have hmem0 : m.node ∈ buildLocal fs := by
        have := cmpToOld_nodes oldT (buildLocal fs)
        exact this ▸ List.mem_map_of_mem SNode.node hm
      have hmem1 := hmem0
      unfold buildLocal at hmem1
      rcases List.mem_cons.mp hmem1 with hr | hmem1
      · exact hroot (by rw [← hp, hr])
      · rcases List.mem_append.mp hmem1 with hd | hdoc
        · rcases List.mem_map.mp hd with ⟨p, hpmem, hpe⟩
          apply hdirs
          rw [← hp, ← hpe]
          exact hpmem
        · rcases List.mem_map.mp hdoc with ⟨f1, hf1, hfe⟩
          exact hnodoc fs m.node hmem0 ⟨hp, by rw [← hfe]⟩
    intro a ha rp he
    subst he
    rcases List.mem_append.mp ha with h1 | h2
    · rcases List.mem_flatMap.mp h1 with ⟨nrem, _, hbody⟩
      cases hfind : getNodeByPath ((cmpToOld oldT (buildLocal fs)).tree)
          (fix_path4local lroot rroot nrem.node.path) with
      | some nloc =>
        simp only [hfind] at hbody
        by_cases hcond : nrem.node.etype = EType.document ∧
            ¬ nrem.node.size = nloc.node.size
        · rw [if_pos hcond] at hbody
          rcases hcActs_cases _ _ _ _ _ _ hbody with h | h | h
          · cases h
          · injection h with h1 h2
            exact habs nloc (List.mem_of_find?_eq_some hfind) h1.symm
          · cases h
        · rw [if_neg hcond] at hbody
          cases hbody
      | none =>
        simp only [hfind] at hbody
        by_cases hfold : nrem.node.etype = EType.folder
        · rw [if_pos hfold] at hbody
          simp at hbody
        · rw [if_neg hfold] at hbody
          simp at hbody
    · rcases List.mem_flatMap.mp h2 with ⟨nloc, hnloc, hbody⟩
      cases hfind : getNodeByPath treeRem (fix_path4remote rroot nloc.node.path) with
      | some m =>
        simp only [hfind] at hbody
        cases hbody
      | none =>
        simp only [hfind] at hbody
        by_cases hfold : nloc.node.etype = EType.folder
        · rw [if_pos hfold] at hbody
          simp at hbody
        · rw [if_neg hfold] at hbody
          have h := List.mem_singleton.mp hbody
          injection h with h1 h2
          exact habs nloc hnloc h1.symm

/-- C10, witness: `r/notes.txt` never becomes a document node, never enters
the documents deletion bucket, and is never uploaded. -/
theorem c10_nonpdf_invisible_witness :
    (∀ n ∈ buildLocal c10fs,
      ¬ (n.path = ["r"] ++ ["notes.txt"] ∧ n.etype = EType.document)) ∧
    (¬ ["r"] ++ ["notes.txt"] ∈
        (cmpToOld (some (buildLocal c10fs)) (buildLocal c10fs)).dels.documents) ∧
    (∀ a ∈ cmp_local2remote ["r"] ["Document", "R"]
        ((cmpToOld (some (buildLocal c10fs)) (buildLocal c10fs)).tree) [],
      ∀ rp, ¬ a = Act.upload (["r"] ++ ["notes.txt"]) rp) :=
  c10_nonpdf_invisible c10fs c10fs (some (buildLocal c10fs)) ["r"] ["Document", "R"]
    [] ⟨["r"], "notes.txt", 7, none⟩ (by decide) (by decide) (by decide) (by decide)

theorem check_node_self (n : FsNode) : check_node n n = SyncState.equal := by
  simp [check_node]

theorem getNodeByPath_map_eq (t : List FsNode) (g : FsNode → Option SyncState)
    (o : FsNode) (hnd : (t.map FsNode.path).Nodup) (ho : o ∈ t) :
    getNodeByPath (t.map (fun n => SNode.mk n (g n))) o.path = some ⟨o, g o⟩ := by
  induction t with
  | nil => cases ho
  | cons n ns ih =>
    rw [List.map_cons, List.nodup_cons] at hnd
    by_cases h : n.path = o.path
    · have hno : n = o := by
        rcases List.mem_cons.mp ho with rfl | hos
        · rfl
        · exact absurd (h ▸ List.mem_map_of_mem FsNode.path hos) hnd.1
      subst hno
      simp [getNodeByPath, List.find?_cons, h]
    · have ho1 : o ∈ ns := by
        rcases List.mem_cons.mp ho with rfl | hos
        · exact absurd rfl h
        · exact hos
      rw [List.map_cons]
      unfold getNodeByPath
      rw [List.find?_cons]
      have hd : (decide ((SNode.mk n (g n)).node.path = o.path)) = false := by
        simpa using h
      rw [hd]
      exact ih hnd.2 ho1

theorem setState_map_eq (t : List FsNode) (g : FsNode → Option SyncState)
    (p : List String) (s : SyncState) :
    setState (t.map (fun n => SNode.mk n (g n))) p s =
      t.map (fun n => SNode.mk n (if n.path = p then some s else g n)) := by
  unfold setState
  rw [List.map_map]
  apply List.map_congr_left
  intro n _
  by_cases h : n.path = p <;> simp [h]

theorem foldl_diffStep_self (t : List FsNode) (hnd : (t.map FsNode.path).Nodup)
    (olds : List FsNode) :
    ∀ (g : FsNode → Option SyncState) (d : DelSet), (∀ o ∈ olds, o ∈ t) →
      olds.foldl diffStep (d, t.map (fun n => SNode.mk n (g n))) =
        (d, t.map (fun n => SNode.mk n
          (if n.path ∈ olds.map FsNode.path then some SyncState.equal else g n))) := by
  induction olds with
  | nil =>
    intro g d _
    simp
  | cons o os ih =>
    intro g d hsub
    have ho : o ∈ t := hsub o (List.mem_cons_self o os)
    rw [List.foldl_cons]
    have hstep : diffStep (d, t.map (fun n => SNode.mk n (g n))) o =
        (d, t.map (fun n => SNode.mk n
          (if n.path = o.path then some SyncState.equal else g n))) := by
      unfold diffStep
      simp only [getNodeByPath_map_eq t g o hnd ho]
      rw [check_node_self, setState_map_eq t g o.path SyncState.equal]
    rw [hstep]
    rw [ih _ d (fun o1 ho1 => hsub o1 (List.mem_cons_of_mem o ho1))]
    refine congrArg _ (List.map_congr_left ?_)
    intro n _
    by_cases h1 : n.path ∈ os.map FsNode.path
    · simp [h1, List.mem_cons]
    · by_cases h2 : n.path = o.path <;> simp [h1, h2, List.mem_cons]

theorem cmpToOld_self (t : List FsNode) (hnd : (t.map FsNode.path).Nodup) :
    cmpToOld (some t) t =
      ⟨⟨[], []⟩, t.map (fun n => SNode.mk n (some SyncState.equal)), false⟩ := by
  simp only [cmpToOld]
  have h0 : t.map (fun n => SNode.mk n none) =
      t.map (fun n => SNode.mk n ((fun _ : FsNode => (none : Option SyncState)) n)) := rfl
  rw [h0, foldl_diffStep_self t hnd t (fun _ => none) ⟨[], []⟩ (fun o ho => ho)]
  have h1 : ∀ n ∈ t, SNode.mk n (if n.path ∈ t.map FsNode.path
      then some SyncState.equal else none) = SNode.mk n (some SyncState.equal) := by
    intro n hn
    rw [if_pos (List.mem_map_of_mem FsNode.path hn)]
  rw [List.map_congr_left h1]
  have h2 : markNew (t.map (fun n => SNode.mk n (some SyncState.equal))) =
      t.map (fun n => SNode.mk n (some SyncState.equal)) := by
    unfold markNew
    rw [List.map_map]
    apply List.map_congr_left
    intro n _
    simp
  rw [h2]

theorem getNodeByPath_isSome_of_mem (t : List SNode) (p : List String)
    (h : ∃ m ∈ t, m.node.path = p) : (getNodeByPath t p).isSome = true := by
  rw [getNodeByPath, List.find?_isSome]
  rcases h with ⟨m, hm, hp⟩
  exact ⟨m, hm, by simpa using hp⟩

theorem sync_state_of_mem_annotated (t : List FsNode) (m : SNode)
    (hm : m ∈ t.map (fun n => SNode.mk n (some SyncState.equal))) :
    m.sync_state = some SyncState.equal := by
  rcases List.mem_map.mp hm with ⟨n, _, rfl⟩
  rfl

/-- C6, amended: with the persisted snapshots equal to the current ones (what
a completed run's `_save_sync_state` establishes when nothing changes
afterwards) and the two current snapshots corresponding under the path
translations (every remote path has a local node and vice versa — true after
a fully successful run whose transferred files are all visible to the local
`.pdf`-filtered walk), the second run performs zero uploads, zero downloads
and zero deletions on either side, store or in-memory: its only possible
actions are renewed conflict prompts. -/
theorem c6_second_run_no_transfers (lroot rroot : List String)
    (curRem curLoc device : List FsNode)
    (hndR : (curRem.map FsNode.path).Nodup) (hndL : (curLoc.map FsNode.path).Nodup)
    (hR2L : ∀ n ∈ curRem, ∃ m ∈ curLoc, m.path = fix_path4local lroot rroot n.path)
    (hL2R : ∀ n ∈ curLoc, ∃ m ∈ curRem, m.path = fix_path4remote rroot n.path) :
    ∃ res, sync_run lroot rroot (some curRem) (some curLoc) curRem curLoc device =
        some res ∧
      res.device = device ∧
      res.treeRem.map SNode.node = curRem ∧
      res.treeLoc.map SNode.node = curLoc ∧
      ∀ a ∈ res.acts, ∃ lp ls rs, a = Act.ask lp ls rs := by
  have hR := cmpToOld_self curRem hndR
  have hL := cmpToOld_self curLoc hndL
  refine ⟨⟨cmp_local2remote lroot rroot
      (curLoc.map (fun n => SNode.mk n (some SyncState.equal)))
      (curRem.map (fun n => SNode.mk n (some SyncState.equal))),
      device,
      curRem.map (fun n => SNode.mk n (some SyncState.equal)),
      curLoc.map (fun n => SNode.mk n (some SyncState.equal))⟩, ?_, rfl, ?_, ?_, ?_⟩
  · unfold sync_run
    rw [hR, hL]
    simp only [handle_deletions, loopLocDocs, loopLocFolders, loopRemDocs,
      loopRemFolders, List.nil_append, List.append_nil]
  · rw [List.map_map]
    exact List.map_id curRem
  · rw [List.map_map]
    exact List.map_id curLoc
  · intro a ha
    rcases List.mem_append.mp ha with h1 | h2
    · rcases List.mem_flatMap.mp h1 with ⟨nrem, hnrem, hbody⟩
      cases hfind : getNodeByPath
          (curLoc.map (fun n => SNode.mk n (some SyncState.equal)))
          (fix_path4local lroot rroot nrem.node.path) with
      | none =>
        rcases List.mem_map.mp hnrem with ⟨n, hn, rfl⟩
        rcases hR2L n hn with ⟨m, hm, hmp⟩
        have hsome := getNodeByPath_isSome_of_mem
          (curLoc.map (fun k => SNode.mk k (some SyncState.equal)))
          (fix_path4local lroot rroot n.path)
          ⟨⟨m, some SyncState.equal⟩, List.mem_map_of_mem _ hm, hmp⟩
        have hfind1 : getNodeByPath
            (curLoc.map (fun k => SNode.mk k (some SyncState.equal)))
            (fix_path4local lroot rroot n.path) = none := hfind
        rw [hfind1] at hsome
        cases hsome
      | some nloc =>
        simp only [hfind] at hbody
        by_cases hcond : nrem.node.etype = EType.document ∧
            ¬ nrem.node.size = nloc.node.size
        · rw [if_pos hcond] at hbody
          rw [sync_state_of_mem_annotated curLoc nloc
              (List.mem_of_find?_eq_some hfind),
            sync_state_of_mem_annotated curRem nrem hnrem] at hbody
          have hask : handle_changes (some SyncState.equal) (some SyncState.equal) =
              some HCAct.ask := rfl
          rw [hask] at hbody
          have := List.mem_singleton.mp hbody
          exact ⟨nloc.node.path, some SyncState.equal, some SyncState.equal, this⟩
        · rw [if_neg hcond] at hbody
          cases hbody
    · rcases List.mem_flatMap.mp h2 with ⟨nloc, hnloc, hbody⟩
      cases hfind : getNodeByPath
          (curRem.map (fun n => SNode.mk n (some SyncState.equal)))
          (fix_path4remote rroot nloc.node.path) with
      | none =>
        rcases List.mem_map.mp hnloc with ⟨n, hn, rfl⟩
        rcases hL2R n hn with ⟨m, hm, hmp⟩
        have hsome := getNodeByPath_isSome_of_mem
          (curRem.map (fun k => SNode.mk k (some SyncState.equal)))
          (fix_path4remote rroot n.path)
          ⟨⟨m, some SyncState.equal⟩, List.mem_map_of_mem _ hm, hmp⟩
        have hfind1 : getNodeByPath
            (curRem.map (fun k => SNode.mk k (some SyncState.equal)))
            (fix_path4remote rroot n.path) = none := hfind
        rw [hfind1] at hsome
        cases hsome
      | some m =>
        simp only [hfind] at hbody
        cases hbody

/-- C6, witness for the amended theorem: on the converged pair the second run
returns, keeps store and trees untouched and emits no action that is not a
conflict prompt (here in fact none at all). -/
theorem c6_second_run_witness :
    ∃ res, sync_run ["r"] ["Document", "R"] (some c6remotePair) (some c6localPair)
        c6remotePair c6localPair c6remotePair = some res ∧
      res.device = c6remotePair ∧
      res.treeRem.map SNode.node = c6remotePair ∧
      res.treeLoc.map SNode.node = c6localPair ∧
      ∀ a ∈ res.acts, ∃ lp ls rs, a = Act.ask lp ls rs :=
  c6_second_run_no_transfers ["r"] ["Document", "R"] c6remotePair c6localPair
    c6remotePair (by decide) (by decide) (by decide) (by decide)

/-- C6, counterexample: with persisted snapshots equal to the current ones (no
external change after a successful first run that downloaded remote `a.txt`),
the second run is NOT free of transfers: the downloaded file is invisible to
the `.pdf`-filtered local walk, so the run downloads `a.txt` again. -/
theorem c6_counterexample :
    (sync_run ["r"] ["Document", "R"] (some c6remoteBad)
        (some (buildLocal c6localFsBad)) c6remoteBad (buildLocal c6localFsBad)
        c6remoteBad).map RunResult.acts =
      some [Act.download ["Document", "R", "a.txt"] ["r", "a.txt"]] := by
  decide

theorem dv_digitChar : ∀ m, m < 10 → dv (Nat.digitChar m) = m := by decide

theorem digitChar_isDigit : ∀ m, m < 10 → (Nat.digitChar m).isDigit = true := by decide

theorem dv_dc (n : Nat) : dv (dc n) = n % 10 :=
  dv_digitChar (n % 10) (Nat.mod_lt n (by norm_num))

theorem dc_isDigit (n : Nat) : (dc n).isDigit = true :=
  digitChar_isDigit (n % 10) (Nat.mod_lt n (by norm_num))

theorem v2_pad (n : Nat) (h : n ≤ 99) : v2 (dc (n / 10)) (dc n) = n := by
  simp only [v2, dv_dc]
  omega

theorem v4_pad (n : Nat) (h : n ≤ 9999) :
    v4 (dc (n / 1000)) (dc (n / 100)) (dc (n / 10)) (dc n) = n := by
  simp only [v4, dv_dc]
  omega

theorem v6_pad (n : Nat) (h : n ≤ 999999) :
    v6 (dc (n / 100000)) (dc (n / 10000)) (dc (n / 1000)) (dc (n / 100))
      (dc (n / 10)) (dc n) = n := by
  simp only [v6, dv_dc]
  omega

theorem fromisoformat_isoformat (d : DateTime) (h : d.validB = true) :
    DateTime.fromisoformat d.isoformat = some d := by
  obtain ⟨y, mo, da, ho, mi, se, us⟩ := d
  simp only [DateTime.validB, decide_eq_true_eq] at h
  by_cases hu : us = 0
  · subst hu
    have e1 : DateTime.isoformat ⟨y, mo, da, ho, mi, se, 0⟩ =
        [dc (y / 1000), dc (y / 100), dc (y / 10), dc y, '-',
         dc (mo / 10), dc mo, '-', dc (da / 10), dc da, 'T',
         dc (ho / 10), dc ho, ':', dc (mi / 10), dc mi, ':',
         dc (se / 10), dc se] := by
      simp [DateTime.isoformat, pad4, pad2]
    rw [e1]
    simp only [DateTime.fromisoformat]
    rw [if_pos (by simp [dc_isDigit])]
    rw [v4_pad y (by omega), v2_pad mo (by omega), v2_pad da (by omega),
      v2_pad ho (by omega), v2_pad mi (by omega), v2_pad se (by omega)]
    rw [if_pos (by simp only [DateTime.validB, decide_eq_true_eq]; omega)]
  · have e2 : DateTime.isoformat ⟨y, mo, da, ho, mi, se, us⟩ =
        [dc (y / 1000), dc (y / 100), dc (y / 10), dc y, '-',
         dc (mo / 10), dc mo, '-', dc (da / 10), dc da, 'T',
         dc (ho / 10), dc ho, ':', dc (mi / 10), dc mi, ':',
         dc (se / 10), dc se, '.',
         dc (us / 100000), dc (us / 10000), dc (us / 1000), dc (us / 100),
         dc (us / 10), dc us] := by
      simp [DateTime.isoformat, pad4, pad2, pad6, hu]
    rw [e2]
    simp only [DateTime.fromisoformat]
    rw [if_pos (by simp [dc_isDigit])]
    rw [v4_pad y (by omega), v2_pad mo (by omega), v2_pad da (by omega),
      v2_pad ho (by omega), v2_pad mi (by omega), v2_pad se (by omega),
      v6_pad us (by omega)]
    rw [if_pos (by simp only [DateTime.validB, decide_eq_true_eq]; omega)]

theorem dateOfJson_jsonOfDate (o : Option DateTime) (h : validDateO o = true) :
    dateOfJson (jsonOfDate o) = some o := by
  cases o with
  | none => rfl
  | some dt =>
    simp only [jsonOfDate, dateOfJson]
    rw [if_pos trivial, fromisoformat_isoformat dt h]
    rfl

theorem compsOfJson_jsonOfPath (p : List String) :
    compsOfJson (p.map (fun c => JValue.jstr c.data)) = some p := by
  induction p with
  | nil => rfl
  | cons c cs ih =>
    rw [List.map_cons]
    simp only [compsOfJson, ih]

theorem etypeOfJson_jsonOfEtype (t : EType) : etypeOfJson (jsonOfEtype t) = some t := by
  cases t <;> rfl

theorem sizeOfJson_jsonOfSize (s : Option Nat) : sizeOfJson (jsonOfSize s) = some s := by
  cases s <;> rfl

theorem parseNode_exportNode (n : FsNode)
    (hc : validDateO n.created = true) (hm : validDateO n.mtime = true) :
    parseNode (exportNode n) = some n := by
  obtain ⟨p, t, s, c, m⟩ := n
  simp only [exportNode, parseNode, pathOfJson, jsonOfPath, compsOfJson_jsonOfPath,
    etypeOfJson_jsonOfEtype, sizeOfJson_jsonOfSize,
    dateOfJson_jsonOfDate c hc, dateOfJson_jsonOfDate m hm]

theorem parseNodes_map_exportNode (t : List FsNode) (hv : validSnap t = true) :
    parseNodes (t.map exportNode) = some t := by
  induction t with
  | nil => rfl
  | cons n ns ih =>
    rw [validSnap, List.all_cons] at hv
    simp only [Bool.and_eq_true] at hv
    obtain ⟨⟨hn1, hn2⟩, hrest⟩ := hv
    rw [List.map_cons]
    simp only [parseNodes, parseNode_exportNode n hn1 hn2, ih hrest]

/-- C7: deserializing the serialized form of a snapshot yields the snapshot
back: `load_from_file` after `save_to_file` preserves every node's path, kind
(`entry_type`), `file_size` and created/modified timestamps exactly, the
timestamps through the lossless `{"_isoformat": isoformat()}` /
`fromisoformat` text encoding of `tools.default` / `tools.object_hook`. -/
theorem c7_serialization_roundtrip (t : List FsNode) (hv : validSnap t = true) :
    parseSnap (exportSnap t) = some t := by
  simp only [exportSnap, parseSnap]
  exact parseNodes_map_exportNode t hv

/-- C7, witness: the round trip on `c7snap`. -/
theorem c7_serialization_witness : parseSnap (exportSnap c7snap) = some c7snap :=
  c7_serialization_roundtrip c7snap (by decide)
